import Mathlib

/-!
Verification of the transport-framing and message-correlation core of
node-debugprotocol-client (src/src/protocol.ts, src/src/stream-debug-client.ts,
src/base-debug-client.ts).

Modelling conventions used throughout this file:

* A JavaScript string is a `List Char` of Unicode code points (`JStr`).
  `String.prototype.length` counts UTF-16 code units (`jsLength`); writing a
  string to a Node stream emits its UTF-8 bytes (`utf8Bytes`).
* JSON values are the inductive `Json`; numbers are modelled as integers,
  which covers every numeric field the protocol core reads or writes
  (`seq`, `request_seq`, `Content-Length`).
* `JSON.stringify` is modelled by `stringify`, including its escaping of
  `"`, `\`, and control characters; non-ASCII code points pass through
  unescaped, exactly as in JavaScript.
* Buffers are `List Nat` of byte values.  The decode loop of
  `StreamDebugClient.handleData` works on bytes; the source decodes header
  bytes to a string before splitting/comparing, which for the comparisons it
  performs (`"\r\n"`, `/: +/`, `"Content-Length"`, all ASCII) is equivalent
  to splitting/comparing the bytes directly, which is what this model does.
-/

namespace DbgClient

/-- A JavaScript string: a sequence of Unicode code points. -/
abbrev JStr := List Char

/-- Coerce a Lean string literal to the JavaScript string model. -/
def jstr (s : String) : JStr := s.data

/-- Number of UTF-16 code units occupied by one code point. -/
def utf16Units (c : Char) : Nat := if c.toNat < 65536 then 1 else 2

/-- JavaScript `string.length`: the UTF-16 code-unit count. -/
def jsLength (s : JStr) : Nat := (s.map utf16Units).sum

/-- UTF-8 encoding of one code point. -/
def utf8EncodeChar (c : Char) : List Nat :=
  let v := c.toNat
  if v < 128 then [v]
  else if v < 2048 then [192 + v / 64, 128 + v % 64]
  else if v < 65536 then [224 + v / 4096, 128 + v / 64 % 64, 128 + v % 64]
  else [240 + v / 262144, 128 + v / 4096 % 64, 128 + v / 64 % 64, 128 + v % 64]

/-- The bytes Node writes for a JavaScript string (UTF-8). -/
def utf8Bytes (s : JStr) : List Nat := s.flatMap utf8EncodeChar

/-- JSON values (numbers restricted to integers, which covers all numeric
fields the protocol core manipulates). -/
inductive Json where
  | null
  | bool (b : Bool)
  | num (n : Int)
  | str (s : JStr)
  | arr (items : List Json)
  | obj (members : List (JStr × Json))

/-- Lower-case hexadecimal digit, as used by `JSON.stringify` control escapes. -/
def hexDigitChar (n : Nat) : Char := if n < 10 then Char.ofNat (48 + n) else Char.ofNat (87 + n)

/-- The escape `JSON.stringify` applies to one character inside a string
literal: `"`, `\` and the short control escapes, `\u00xx` for the remaining
control characters, everything else (including non-ASCII) verbatim. -/
def escapeChar (c : Char) : JStr :=
  if c = '"' then ['\\', '"']
  else if c = '\\' then ['\\', '\\']
  else if c = Char.ofNat 8 then ['\\', 'b']
  else if c = Char.ofNat 12 then ['\\', 'f']
  else if c = '\n' then ['\\', 'n']
  else if c = '\r' then ['\\', 'r']
  else if c = '\t' then ['\\', 't']
  else if c.toNat < 32 then ['\\', 'u', '0', '0', hexDigitChar (c.toNat / 16), hexDigitChar (c.toNat % 16)]
  else [c]

/-- A JSON string literal: quote, escaped characters, quote. -/
def quoteStr (s : JStr) : JStr := '"' :: s.flatMap escapeChar ++ ['"']

/-- Decimal digits, recursing on a fuel argument so that the kernel can
evaluate it; `n` itself is always enough fuel since the value shrinks by a
factor of ten per step, and with fuel `0` the argument is below ten, for
which the exhaustion arm is also correct. -/
def natDigitsAux : Nat → Nat → JStr
  | 0, n => [Char.ofNat (48 + n % 10)]
  | fuel + 1, n =>
    if n < 10 then [Char.ofNat (48 + n)]
    else natDigitsAux fuel (n / 10) ++ [Char.ofNat (48 + n % 10)]

/-- Decimal digits of a natural number, as `Number.prototype.toString`. -/
def natDigits (n : Nat) : JStr := natDigitsAux n n

/-- Decimal rendering of an integer. -/
def intChars (n : Int) : JStr :=
  if n < 0 then '-' :: natDigits n.natAbs else natDigits n.toNat

mutual

/-- `JSON.stringify`, restricted to the defined (non-`undefined`) values this
model represents.  Object members serialize in insertion order, as in V8. -/
def stringify : Json → JStr
  | .null => jstr ("null")
  | .bool true => jstr ("true")
  | .bool false => jstr ("false")
  | .num n => intChars n
  | .str s => quoteStr s
  | .arr items => '[' :: stringifyItems items ++ [']']
  | .obj members => '\x7b' :: stringifyMembers members ++ ['\x7d']

/-- Comma-separated serialization of array elements. -/
def stringifyItems : List Json → JStr
  | [] => []
  | [x] => stringify x
  | x :: y :: rest => stringify x ++ ',' :: stringifyItems (y :: rest)

/-- Comma-separated serialization of object members. -/
def stringifyMembers : List (JStr × Json) → JStr
  | [] => []
  | [(k, v)] => quoteStr k ++ ':' :: stringify v
  | (k, v) :: m :: rest => quoteStr k ++ ':' :: stringify v ++ ',' :: stringifyMembers (m :: rest)

end

/-! ## protocol.ts: wire constants and `encodeMessage` -/

/-- `TWO_CRLF` from protocol.ts. -/
def TWO_CRLF : JStr := jstr ("\r\n\r\n")

/-- `CONTENT_LENGTH_HEADER` from protocol.ts. -/
def CONTENT_LENGTH_HEADER : JStr := jstr ("Content-Length")

/-- `encodeMessage` from protocol.ts: the header uses `body.length`, the
UTF-16 code-unit count of the serialized body. -/
def encodeMessage (message : Json) : JStr :=
  let body := stringify message
  let header := CONTENT_LENGTH_HEADER ++ jstr (": ") ++ natDigits (jsLength body)
  header ++ TWO_CRLF ++ body

/-! ## JavaScript object access and the protocol.ts classifiers -/

/-- First member with the given key (members parsed from JSON have unique
keys, so first is the only one). -/
def lookupField : List (JStr × Json) → JStr → Option Json
  | [], _ => none
  | (k, v) :: rest, key => if k = key then some v else lookupField rest key

/-- JavaScript property access on a parsed JSON value; `none` is `undefined`
(absent property, or access on a non-object). -/
def jsGet : Json → JStr → Option Json
  | .obj members, key => lookupField members key
  | _, _ => none

/-- Strict equality of a property value with a string literal, as in
`message.type === "request"`. -/
def typeIs (m : Json) (s : JStr) : Bool :=
  match jsGet m (jstr ("type")) with
  | some (.str t) => t = s
  | _ => false

/-- `typeof v === "string"` for a property value. -/
def isStrV : Option Json → Bool
  | some (.str _) => true
  | _ => false

/-- `typeof v === "number"` for a property value. -/
def isNumV : Option Json → Bool
  | some (.num _) => true
  | _ => false

/-- `typeof v === "boolean"` for a property value. -/
def isBoolV : Option Json → Bool
  | some (.bool _) => true
  | _ => false

/-- JavaScript truthiness of a property value. -/
def jsTruthy : Option Json → Bool
  | none => false
  | some .null => false
  | some (.bool b) => b
  | some (.num n) => n ≠ 0
  | some (.str s) => s ≠ []
  | some (.arr _) => true
  | some (.obj _) => true

/-- `isRequest` from protocol.ts. -/
def isRequest (message : Json) : Bool :=
  typeIs message (jstr ("request"))
    && isStrV (jsGet message (jstr ("command")))
    && isNumV (jsGet message (jstr ("seq")))

/-- `isResponse` from protocol.ts. -/
def isResponse (message : Json) : Bool :=
  typeIs message (jstr ("response"))
    && isNumV (jsGet message (jstr ("request_seq")))
    && isBoolV (jsGet message (jstr ("success")))

/-- `isEvent` from protocol.ts. -/
def isEvent (message : Json) : Bool :=
  typeIs message (jstr ("event"))
    && isStrV (jsGet message (jstr ("event")))
    && isNumV (jsGet message (jstr ("seq")))

/-! ## The decode loop of `StreamDebugClient.handleData`, on bytes -/

/-- The bytes of `TWO_CRLF`. -/
def TWO_CRLF_BYTES : List Nat := [13, 10, 13, 10]

/-- The bytes of `CONTENT_LENGTH_HEADER`. -/
def CONTENT_LENGTH_BYTES : List Nat := utf8Bytes CONTENT_LENGTH_HEADER

/-- `Buffer.prototype.indexOf`: index of the first occurrence of `pat` in
`buf`, if any. -/
def indexOfSeq (buf pat : List Nat) : Option Nat :=
  if pat.isPrefixOf buf then some 0
  else
    match buf with
    | [] => none
    | _ :: t => (indexOfSeq t pat).map (· + 1)

/-- Prepend a byte to the first piece of a split result. -/
def consHead (b : Nat) : List (List Nat) → List (List Nat)
  | [] => [[b]]
  | x :: xs => (b :: x) :: xs

/-- `header.split("\r\n")`, on bytes. -/
def splitOnCRLF : List Nat → List (List Nat)
  | [] => [[]]
  | 13 :: 10 :: rest => [] :: splitOnCRLF rest
  | b :: rest => consHead b (splitOnCRLF rest)

/-- `line.split(/: +/)`, on bytes, recursing on a fuel argument so that the
kernel can evaluate it: each separator is a colon followed by a maximal
nonempty run of spaces.  Every step consumes at least one byte, so the
line's length is always enough fuel and the exhaustion arm is unreachable. -/
def splitColonSpacesAux : Nat → List Nat → List (List Nat)
  | _, [] => [[]]
  | 0, l => [l]
  | fuel + 1, b :: rest =>
    if b = 58 ∧ rest.head? = some (32 : Nat) then
      [] :: splitColonSpacesAux fuel (rest.dropWhile (fun x => x = 32))
    else consHead b (splitColonSpacesAux fuel rest)

/-- `line.split(/: +/)`, on bytes. -/
def splitColonSpaces (line : List Nat) : List (List Nat) :=
  splitColonSpacesAux line.length line

/-- A found occurrence lies entirely inside the buffer. -/
theorem indexOfSeq_some_bound (buf pat : List Nat) (i : Nat)
    (h : indexOfSeq buf pat = some i) : i + pat.length ≤ buf.length := by
  induction buf generalizing i with
  | nil =>
    rw [indexOfSeq] at h
    by_cases hp : pat.isPrefixOf ([] : List Nat)
    · rw [List.isPrefixOf_iff_prefix] at hp
      simp [hp, List.prefix_nil.mp hp] at h ⊢
      omega
    · simp [hp] at h
  | cons b t ih =>
    rw [indexOfSeq] at h
    by_cases hp : pat.isPrefixOf (b :: t)
    · simp [hp] at h
      subst h
      rw [List.isPrefixOf_iff_prefix] at hp
      simpa using hp.length_le
    · simp [hp, Option.map_eq_some'] at h
      obtain ⟨j, hj, rfl⟩ := h
      have := ih j hj
      simp
      omega

/-- Whether a byte is an ASCII decimal digit. -/
def isDigitByte (b : Nat) : Bool := 48 ≤ b && b ≤ 57

/-- Numeric value of a digit string. -/
def digitsVal (bs : List Nat) : Nat := bs.foldl (fun acc b => acc * 10 + (b - 48)) 0

/-- `NaN` as it behaves in this decode loop: `contentLength` is only ever
compared with `>= 0` and overwritten, and `NaN` fails that comparison exactly
as any negative value does, so it is represented by `-1`. -/
def jsNaN : Int := -1

/-- JavaScript unary plus applied to `pair[1]` (`undefined` when the split
produced a single piece).  Modelled on the strings this loop can meet:
`undefined` gives `NaN`, the empty string gives `0`, a decimal digit string
gives its value, anything else gives `NaN`. -/
def jsToNumber : Option (List Nat) → Int
  | none => jsNaN
  | some bs =>
    if bs = [] then 0
    else if bs.all isDigitByte then (digitsVal bs : Int)
    else jsNaN

/-- One iteration of the header-line `for` loop: a line whose first piece is
`Content-Length` overwrites the recorded length; every other line leaves it. -/
def processHeaderLine (cl : Int) (line : List Nat) : Int :=
  let pair := splitColonSpaces line
  if pair.head? = some CONTENT_LENGTH_BYTES then jsToNumber pair[1]? else cl

/-- The header block parse: split on CRLF, fold the line loop. -/
def headerContentLength (headerBytes : List Nat) (cl : Int) : Int :=
  (splitOnCRLF headerBytes).foldl processHeaderLine cl

/-- The per-connection decode state: `buffer` and `contentLength` fields of
`StreamDebugClient` (`-1` means no length is expected). -/
structure DecodeState where
  buffer : List Nat
  contentLength : Int
deriving DecidableEq

/-- Initial decode state: `Buffer.alloc(0)` and `-1`. -/
def decodeInit : DecodeState := ⟨[], -1⟩

/-- Result of one run of the decode loop: the message bodies dispatched (in
order), the exceptions caught and logged by the `try`/`catch`, the final
decode state, and the final state of the message consumer. -/
structure LoopResult (σ ε : Type) where
  bodies : List (List Nat)
  errs : List ε
  decode : DecodeState
  app : σ

/-- Termination measure for the decode loop. -/
def loopMeasure (st : DecodeState) : Nat :=
  2 * st.buffer.length + (if 0 ≤ st.contentLength then 1 else 0)

/-- The `while (true)` loop of `StreamDebugClient.handleData`.  The per-body
processing (`JSON.parse` plus `handleMessage` plus whatever application
callbacks they invoke synchronously) is the parameter `h`, a state-threading
function that may fail; a failure is caught, logged (collected in `errs`),
and the loop continues, exactly as the source's `try`/`catch` does.

The loop recurses on a fuel argument so that the kernel can evaluate it:
every iteration strictly decreases `loopMeasure`, so `loopMeasure st`
iterations always suffice (`handleLoopF_congr` below) and the exhaustion arm
is unreachable from `handleLoopH`. -/
def handleLoopF {σ ε : Type} (h : σ → List Nat → σ × Except ε Unit) :
    Nat → DecodeState → σ → LoopResult σ ε
  | 0, st, s => ⟨[], [], st, s⟩
  | fuel + 1, st, s =>
    if 0 ≤ st.contentLength then
      if st.contentLength.toNat ≤ st.buffer.length then
        let n := st.contentLength.toNat
        let body := st.buffer.take n
        let rest : DecodeState := ⟨st.buffer.drop n, -1⟩
        if body = [] then
          handleLoopF h fuel rest s
        else
          let hr := h s body
          let r := handleLoopF h fuel rest hr.1
          { bodies := body :: r.bodies,
            errs := (match hr.2 with | .ok _ => r.errs | .error e => e :: r.errs),
            decode := r.decode, app := r.app }
      else ⟨[], [], st, s⟩
    else
      match indexOfSeq st.buffer TWO_CRLF_BYTES with
      | some idx =>
          handleLoopF h fuel
            ⟨st.buffer.drop (idx + 4), headerContentLength (st.buffer.take idx) st.contentLength⟩ s
      | none => ⟨[], [], st, s⟩

/-- The decode loop, started with enough fuel for its input. -/
def handleLoopH {σ ε : Type} (h : σ → List Nat → σ × Except ε Unit) (st : DecodeState) (s : σ) :
    LoopResult σ ε :=
  handleLoopF h (loopMeasure st) st s

/-- `StreamDebugClient.handleData`: append the chunk to the buffer, then run
the decode loop. -/
def handleData {σ ε : Type} (h : σ → List Nat → σ × Except ε Unit) (st : DecodeState) (s : σ)
    (data : List Nat) : LoopResult σ ε :=
  handleLoopH h ⟨st.buffer ++ data, st.contentLength⟩ s

/-- A message consumer that always succeeds, for observing the framing layer
alone. -/
def pureHandler : Unit → List Nat → Unit × Except Empty Unit := fun _ _ => ((), .ok ())

/-- Framing-level view of `handleData`: the bodies extracted from one chunk
and the resulting decode state. -/
def decodeChunk (st : DecodeState) (data : List Nat) : LoopResult Unit Empty :=
  handleData pureHandler st () data

/-- Feeding a sequence of chunks one after another, accumulating the decoded
bodies in order. -/
def decodeChunks : DecodeState → List (List Nat) → List (List Nat) × DecodeState
  | st, [] => ([], st)
  | st, c :: cs =>
    let r := decodeChunk st c
    let (o, s) := decodeChunks r.decode cs
    (r.bodies ++ o, s)

/-! ## Step lemmas for the decode loop -/

theorem loopMeasure_body_lt (st : DecodeState) (h0 : 0 ≤ st.contentLength) :
    loopMeasure ⟨st.buffer.drop st.contentLength.toNat, -1⟩ < loopMeasure st := by
  simp only [loopMeasure, List.length_drop]
  rw [if_neg (by omega : ¬ (0 ≤ (-1 : Int))), if_pos h0]
  omega

theorem loopMeasure_header_lt (st : DecodeState) (h0 : ¬ 0 ≤ st.contentLength) (idx : Nat)
    (hidx : indexOfSeq st.buffer TWO_CRLF_BYTES = some idx) :
    loopMeasure
        ⟨st.buffer.drop (idx + 4), headerContentLength (st.buffer.take idx) st.contentLength⟩
      < loopMeasure st := by
  have hb := indexOfSeq_some_bound st.buffer TWO_CRLF_BYTES idx hidx
  simp [TWO_CRLF_BYTES] at hb
  simp only [loopMeasure, List.length_drop]
  rw [if_neg h0]
  by_cases hcl : 0 ≤ headerContentLength (List.take idx st.buffer) st.contentLength
  · rw [if_pos hcl]; omega
  · rw [if_neg hcl]; omega

theorem loopMeasure_eq_zero (st : DecodeState) (h : loopMeasure st = 0) :
    st.buffer = [] ∧ ¬ 0 ≤ st.contentLength := by
  simp only [loopMeasure] at h
  have hlen : st.buffer.length = 0 := by omega
  refine ⟨List.length_eq_zero.mp hlen, fun h0 => ?_⟩
  rw [if_pos h0] at h
  omega

/-- Fuel irrelevance: any two sufficient fuels give the same loop result. -/
theorem handleLoopF_congr {σ ε : Type} (h : σ → List Nat → σ × Except ε Unit) :
    ∀ (f1 f2 : Nat) (st : DecodeState) (s : σ),
      loopMeasure st ≤ f1 → loopMeasure st ≤ f2 →
      handleLoopF h f1 st s = handleLoopF h f2 st s := by
  intro f1
  induction f1 with
  | zero =>
    intro f2 st s hf1 hf2
    obtain ⟨hbuf, hcl⟩ := loopMeasure_eq_zero st (by omega)
    have hidx : indexOfSeq st.buffer TWO_CRLF_BYTES = none := by rw [hbuf]; rfl
    cases f2 with
    | zero => rfl
    | succ f2 => simp [handleLoopF, hcl, hidx]
  | succ f1 ih =>
    intro f2 st s hf1 hf2
    cases f2 with
    | zero =>
      obtain ⟨hbuf, hcl⟩ := loopMeasure_eq_zero st (by omega)
      have hidx : indexOfSeq st.buffer TWO_CRLF_BYTES = none := by rw [hbuf]; rfl
      simp [handleLoopF, hcl, hidx]
    | succ f2 =>
      by_cases h0 : 0 ≤ st.contentLength
      · by_cases hl : st.contentLength.toNat ≤ st.buffer.length
        · have hm := loopMeasure_body_lt st h0
          by_cases hb : st.buffer.take st.contentLength.toNat = []
          · simp [handleLoopF, h0, hl, hb]
            exact ih f2 _ s (by omega) (by omega)
          · simp [handleLoopF, h0, hl, hb]
            rw [ih f2 ⟨st.buffer.drop st.contentLength.toNat, -1⟩
              (h s (st.buffer.take st.contentLength.toNat)).1 (by omega) (by omega)]
            exact ⟨rfl, rfl, rfl, rfl⟩
        · simp [handleLoopF, h0, hl]
      · match hidx : indexOfSeq st.buffer TWO_CRLF_BYTES with
        | some idx =>
          have hm := loopMeasure_header_lt st h0 idx hidx
          simp [handleLoopF, h0, hidx]
          exact ih f2 _ s (by omega) (by omega)
        | none =>
          simp [handleLoopF, h0, hidx]

theorem handleLoopH_stuckBody {σ ε : Type} (h : σ → List Nat → σ × Except ε Unit)
    (st : DecodeState) (s : σ) (h0 : 0 ≤ st.contentLength)
    (hl : ¬ st.contentLength.toNat ≤ st.buffer.length) :
    handleLoopH h st s = ⟨[], [], st, s⟩ := by
  rw [handleLoopH]
  obtain ⟨m, hm⟩ : ∃ m, loopMeasure st = m + 1 :=
    ⟨2 * st.buffer.length, by simp [loopMeasure, if_pos h0]⟩
  rw [hm]
  simp [handleLoopF, h0, hl]

theorem handleLoopH_skipBody {σ ε : Type} (h : σ → List Nat → σ × Except ε Unit)
    (st : DecodeState) (s : σ) (h0 : 0 ≤ st.contentLength)
    (hl : st.contentLength.toNat ≤ st.buffer.length)
    (hb : st.buffer.take st.contentLength.toNat = []) :
    handleLoopH h st s = handleLoopH h ⟨st.buffer.drop st.contentLength.toNat, -1⟩ s := by
  have hlt := loopMeasure_body_lt st h0
  rw [handleLoopH, handleLoopH]
  obtain ⟨m, hm⟩ : ∃ m, loopMeasure st = m + 1 :=
    ⟨2 * st.buffer.length, by simp [loopMeasure, if_pos h0]⟩
  rw [hm]
  simp [handleLoopF, h0, hl, hb]
  exact handleLoopF_congr h m _ _ s (by omega) (le_refl _)

theorem handleLoopH_body {σ ε : Type} (h : σ → List Nat → σ × Except ε Unit)
    (st : DecodeState) (s : σ) (h0 : 0 ≤ st.contentLength)
    (hl : st.contentLength.toNat ≤ st.buffer.length)
    (hb : ¬ st.buffer.take st.contentLength.toNat = []) :
    handleLoopH h st s =
      (let body := st.buffer.take st.contentLength.toNat
       let hr := h s body
       let r := handleLoopH h ⟨st.buffer.drop st.contentLength.toNat, -1⟩ hr.1
       { bodies := body :: r.bodies,
         errs := (match hr.2 with | .ok _ => r.errs | .error e => e :: r.errs),
         decode := r.decode, app := r.app }) := by
  have hlt := loopMeasure_body_lt st h0
  rw [handleLoopH]
  obtain ⟨m, hm⟩ : ∃ m, loopMeasure st = m + 1 :=
    ⟨2 * st.buffer.length, by simp [loopMeasure, if_pos h0]⟩
  rw [hm]
  simp [handleLoopF, handleLoopH, h0, hl, hb]
  rw [handleLoopF_congr h m _ _ (h s (st.buffer.take st.contentLength.toNat)).1
    (by omega) (le_refl _)]
  exact ⟨rfl, rfl, rfl, rfl⟩

theorem handleLoopH_header {σ ε : Type} (h : σ → List Nat → σ × Except ε Unit)
    (st : DecodeState) (s : σ) (h0 : ¬ 0 ≤ st.contentLength) (idx : Nat)
    (hidx : indexOfSeq st.buffer TWO_CRLF_BYTES = some idx) :
    handleLoopH h st s =
      handleLoopH h
        ⟨st.buffer.drop (idx + 4), headerContentLength (st.buffer.take idx) st.contentLength⟩ s := by
  have hlt := loopMeasure_header_lt st h0 idx hidx
  have hbound := indexOfSeq_some_bound st.buffer TWO_CRLF_BYTES idx hidx
  simp [TWO_CRLF_BYTES] at hbound
  rw [handleLoopH, handleLoopH]
  obtain ⟨m, hm⟩ : ∃ m, loopMeasure st = m + 1 := by
    refine ⟨loopMeasure st - 1, ?_⟩
    have : 1 ≤ loopMeasure st := by
      simp only [loopMeasure]
      omega
    omega
  rw [hm]
  simp [handleLoopF, h0, hidx]
  exact handleLoopF_congr h m _ _ s (by omega) (le_refl _)

theorem handleLoopH_stuckHeader {σ ε : Type} (h : σ → List Nat → σ × Except ε Unit)
    (st : DecodeState) (s : σ) (h0 : ¬ 0 ≤ st.contentLength)
    (hidx : indexOfSeq st.buffer TWO_CRLF_BYTES = none) :
    handleLoopH h st s = ⟨[], [], st, s⟩ := by
  rw [handleLoopH]
  cases hm : loopMeasure st with
  | zero => rfl
  | succ m => simp [handleLoopF, h0, hidx]

/-! ## Chunk-boundary independence of the decode loop -/

/-- An occurrence found in a buffer is still the first occurrence after more
bytes are appended: the found occurrence lies entirely inside the old buffer,
so no occurrence can start earlier. -/
theorem indexOfSeq_append_some (buf pat d : List Nat) (i : Nat)
    (h : indexOfSeq buf pat = some i) : indexOfSeq (buf ++ d) pat = some i := by
  induction buf generalizing i with
  | nil =>
    rw [indexOfSeq] at h
    by_cases hp : pat.isPrefixOf ([] : List Nat)
    · simp [hp] at h
      subst h
      rw [List.isPrefixOf_iff_prefix] at hp
      have hnil : pat = [] := List.prefix_nil.mp hp
      subst hnil
      rw [indexOfSeq.eq_def]
      simp [List.isPrefixOf_iff_prefix]
    · simp [hp] at h
  | cons b t ih =>
    rw [indexOfSeq] at h
    by_cases hp : pat.isPrefixOf (b :: t)
    · simp [hp] at h
      subst h
      rw [List.cons_append, indexOfSeq]
      have hp2 : pat.isPrefixOf (b :: (t ++ d)) := by
        rw [List.isPrefixOf_iff_prefix] at hp ⊢
        rw [← List.cons_append]
        exact hp.trans (List.prefix_append _ _)
      simp [hp2]
    · simp [hp, Option.map_eq_some'] at h
      obtain ⟨j, hj, rfl⟩ := h
      have hbound := indexOfSeq_some_bound t pat j hj
      rw [List.cons_append, indexOfSeq]
      have hp2 : ¬ pat.isPrefixOf (b :: (t ++ d)) := by
        intro hcon
        apply hp
        rw [List.isPrefixOf_iff_prefix] at hcon ⊢
        have hlen : pat.length ≤ (b :: t).length := by simp; omega
        rw [List.prefix_iff_eq_take] at hcon
        rw [List.prefix_iff_eq_take]
        calc pat = List.take pat.length ((b :: t) ++ d) := by
              rw [List.cons_append]; exact hcon
          _ = List.take pat.length (b :: t) := List.take_append_of_le_length hlen
      simp [hp2, ih j hj]

/-- Appending bytes to the input of one loop run splits: the run on the
extended buffer is the run on the original buffer followed by a run that
starts from the leftover state with the new bytes appended. -/
theorem handleLoopH_append {σ ε : Type} (h : σ → List Nat → σ × Except ε Unit) (d : List Nat)
    (st : DecodeState) (s : σ) :
    handleLoopH h ⟨st.buffer ++ d, st.contentLength⟩ s =
      (let r1 := handleLoopH h st s
       let r2 := handleLoopH h ⟨r1.decode.buffer ++ d, r1.decode.contentLength⟩ r1.app
       ⟨r1.bodies ++ r2.bodies, r1.errs ++ r2.errs, r2.decode, r2.app⟩) := by
  generalize hn : loopMeasure st = n
  induction n using Nat.strong_induction_on generalizing st s with
  | _ n ih =>
  subst hn
  by_cases h0 : 0 ≤ st.contentLength
  · by_cases hl : st.contentLength.toNat ≤ st.buffer.length
    · have hl2 : st.contentLength.toNat ≤ (st.buffer ++ d).length := by
        simp; omega
      have htake : (st.buffer ++ d).take st.contentLength.toNat
          = st.buffer.take st.contentLength.toNat := List.take_append_of_le_length hl
      have hdrop : (st.buffer ++ d).drop st.contentLength.toNat
          = st.buffer.drop st.contentLength.toNat ++ d := List.drop_append_of_le_length hl
      have hmeas : loopMeasure ⟨st.buffer.drop st.contentLength.toNat, -1⟩ < loopMeasure st := by
        simp only [loopMeasure, List.length_drop]
        rw [if_neg (by omega : ¬ (0 ≤ (-1 : Int))), if_pos h0]
        omega
      by_cases hb : st.buffer.take st.contentLength.toNat = []
      · rw [handleLoopH_skipBody h ⟨st.buffer ++ d, st.contentLength⟩ s h0 hl2 (by rw [htake]; exact hb)]
        rw [handleLoopH_skipBody h st s h0 hl hb]
        simp only [hdrop]
        exact ih _ hmeas _ s rfl
      · rw [handleLoopH_body h ⟨st.buffer ++ d, st.contentLength⟩ s h0 hl2 (by rw [htake]; exact hb)]
        rw [handleLoopH_body h st s h0 hl hb]
        simp only [htake, hdrop]
        rw [ih _ hmeas ⟨st.buffer.drop st.contentLength.toNat, -1⟩
          (h s (st.buffer.take st.contentLength.toNat)).1 rfl]
        cases (h s (st.buffer.take st.contentLength.toNat)).2 <;> simp
    · rw [handleLoopH_stuckBody h st s h0 hl]
      simp
  · match hidx : indexOfSeq st.buffer TWO_CRLF_BYTES with
    | some idx =>
      have hbound := indexOfSeq_some_bound st.buffer TWO_CRLF_BYTES idx hidx
      simp [TWO_CRLF_BYTES] at hbound
      have hidx2 : indexOfSeq (st.buffer ++ d) TWO_CRLF_BYTES = some idx :=
        indexOfSeq_append_some _ _ _ _ hidx
      have htake : (st.buffer ++ d).take idx = st.buffer.take idx :=
        List.take_append_of_le_length (by omega)
      have hdrop : (st.buffer ++ d).drop (idx + 4) = st.buffer.drop (idx + 4) ++ d :=
        List.drop_append_of_le_length (by omega)
      have hmeas : loopMeasure
          ⟨st.buffer.drop (idx + 4), headerContentLength (st.buffer.take idx) st.contentLength⟩
          < loopMeasure st := by
        simp only [loopMeasure, List.length_drop]
        rw [if_neg h0]
        by_cases hcl : 0 ≤ headerContentLength (st.buffer.take idx) st.contentLength
        · rw [if_pos hcl]; omega
        · rw [if_neg hcl]; omega
      rw [handleLoopH_header h ⟨st.buffer ++ d, st.contentLength⟩ s h0 idx hidx2]
      rw [handleLoopH_header h st s h0 idx hidx]
      simp only [htake, hdrop]
      exact ih _ hmeas _ s rfl
    | none =>
      rw [handleLoopH_stuckHeader h st s h0 hidx]
      simp

/-- Splitting one chunk into two and feeding them in order gives the same
bodies and the same final decode state. -/
theorem decodeChunk_append (st : DecodeState) (a b : List Nat) :
    decodeChunk st (a ++ b) =
      (let r1 := decodeChunk st a
       let r2 := decodeChunk r1.decode b
       ⟨r1.bodies ++ r2.bodies, r1.errs ++ r2.errs, r2.decode, r2.app⟩) := by
  show handleLoopH pureHandler ⟨st.buffer ++ (a ++ b), st.contentLength⟩ () = _
  rw [← List.append_assoc]
  exact handleLoopH_append pureHandler b ⟨st.buffer ++ a, st.contentLength⟩ ()

/-- Feeding a nonempty sequence of chunks equals feeding their concatenation
as one chunk. -/
theorem decodeChunks_cons (cs : List (List Nat)) : ∀ (c : List Nat) (st : DecodeState),
    decodeChunks st (c :: cs) =
      ((decodeChunk st (c :: cs).flatten).bodies, (decodeChunk st (c :: cs).flatten).decode) := by
  induction cs with
  | nil =>
    intro c st
    simp [decodeChunks]
  | cons c2 cs2 ih =>
    intro c st
    show ((decodeChunk st c).bodies ++ (decodeChunks (decodeChunk st c).decode (c2 :: cs2)).1,
          (decodeChunks (decodeChunk st c).decode (c2 :: cs2)).2) = _
    rw [ih c2 (decodeChunk st c).decode]
    have hfl : (c :: c2 :: cs2).flatten = c ++ (c2 :: cs2).flatten := by simp
    rw [hfl, decodeChunk_append st c (c2 :: cs2).flatten]

/-- The bodies extracted and the final decode state do not depend on the
message consumer: a consumer failure is caught inside the loop and decoding
continues. -/
theorem handleLoopH_bodies_decode {σ ε : Type} (h : σ → List Nat → σ × Except ε Unit)
    (st : DecodeState) (s : σ) :
    (handleLoopH h st s).bodies = (handleLoopH pureHandler st ()).bodies
      ∧ (handleLoopH h st s).decode = (handleLoopH pureHandler st ()).decode := by
  generalize hn : loopMeasure st = n
  induction n using Nat.strong_induction_on generalizing st s with
  | _ n ih =>
  subst hn
  by_cases h0 : 0 ≤ st.contentLength
  · by_cases hl : st.contentLength.toNat ≤ st.buffer.length
    · have hmeas : loopMeasure ⟨st.buffer.drop st.contentLength.toNat, -1⟩ < loopMeasure st := by
        simp only [loopMeasure, List.length_drop]
        rw [if_neg (by omega : ¬ (0 ≤ (-1 : Int))), if_pos h0]
        omega
      by_cases hb : st.buffer.take st.contentLength.toNat = []
      · rw [handleLoopH_skipBody h st s h0 hl hb,
          handleLoopH_skipBody pureHandler st () h0 hl hb]
        exact ih _ hmeas _ s rfl
      · rw [handleLoopH_body h st s h0 hl hb,
          handleLoopH_body pureHandler st () h0 hl hb]
        have iha := ih _ hmeas ⟨st.buffer.drop st.contentLength.toNat, -1⟩
          (h s (st.buffer.take st.contentLength.toNat)).1 rfl
        simp only [pureHandler]
        exact ⟨by simp [iha.1], iha.2⟩
    · rw [handleLoopH_stuckBody h st s h0 hl, handleLoopH_stuckBody pureHandler st () h0 hl]
      exact ⟨rfl, rfl⟩
  · match hidx : indexOfSeq st.buffer TWO_CRLF_BYTES with
    | some idx =>
      have hbound := indexOfSeq_some_bound st.buffer TWO_CRLF_BYTES idx hidx
      simp [TWO_CRLF_BYTES] at hbound
      have hmeas : loopMeasure
          ⟨st.buffer.drop (idx + 4), headerContentLength (st.buffer.take idx) st.contentLength⟩
          < loopMeasure st := by
        simp only [loopMeasure, List.length_drop]
        rw [if_neg h0]
        by_cases hcl : 0 ≤ headerContentLength (st.buffer.take idx) st.contentLength
        · rw [if_pos hcl]; omega
        · rw [if_neg hcl]; omega
      rw [handleLoopH_header h st s h0 idx hidx, handleLoopH_header pureHandler st () h0 idx hidx]
      exact ih _ hmeas _ s rfl
    | none =>
      rw [handleLoopH_stuckHeader h st s h0 hidx, handleLoopH_stuckHeader pureHandler st () h0 hidx]
      exact ⟨rfl, rfl⟩

/-! ## BaseDebugClient: sequence allocator, correlation table, dispatcher

The mutable fields `nextSeq`, `pendingRequests` and `reverseRequestHandlers`
of `BaseDebugClient` become an explicit `ClientState`.  Every callback stored
in `pendingRequests` is an instance of the one closure built inside
`sendRequest` (log, then `resolve(response.body)` on a truthy `success`, else
`reject(new Error(response.message))`), so the map is modelled by its key
list and the closure's behaviour is emitted as `Effect`s at dispatch time.
A reverse-request handler is an async function from the request `arguments`
to a body; its settled outcome is modelled as an `Except`, and the
`.then`/`.catch` continuation that sends the response runs synchronously
here.  `this.log(...)` calls surface as `Effect.logged` notes and
`this.sendMessage(...)` as `Effect.sent`. -/

/-- One log call site in base-debug-client.ts. -/
inductive LogNote where
  | receivedResponse
  | receivedErrorResponse
  | unmatchedResponse
  | receivedEvent
  | receivedRequest
  | noReverseHandler
  | unknownMessage
  | sendingRequest
  | sendingResponse
  | sendingErrorResponse
deriving DecidableEq

/-- Observable actions of the dispatcher and senders. -/
inductive Effect where
  /-- The pending promise registered under `requestSeq` is resolved with
  `response.body`. -/
  | resolved (requestSeq : Int) (body : Option Json)
  /-- The pending promise registered under `requestSeq` is rejected with
  `new Error(response.message)`. -/
  | rejected (requestSeq : Int) (message : Option Json)
  /-- `eventEmitter.emit(event, body)`. -/
  | emitted (event : JStr) (body : Option Json)
  /-- `this.sendMessage(m)`. -/
  | sent (m : Json)
  /-- `this.log(...)`. -/
  | logged (note : LogNote)

/-- Settled outcome of a reverse-request handler: the resolved body, or the
`message` of the rejection error. -/
def ReverseHandler : Type := Option Json → Except JStr (Option Json)

/-- The connection-scoped mutable fields of `BaseDebugClient`. -/
structure ClientState where
  nextSeq : Int
  pendingRequests : List Int
  reverseRequestHandlers : List (JStr × ReverseHandler)

/-- The initial field values: `nextSeq = 1`, empty maps. -/
def clientInit : ClientState := ⟨1, [], []⟩

/-- `Map.prototype.set` on the pending map, viewed on keys: a new key is
appended, an existing key keeps its position (its callback is replaced). -/
def pendingSet (keys : List Int) (k : Int) : List Int :=
  if k ∈ keys then keys else keys ++ [k]

/-- `Map.prototype.get` on the reverse-request handler map. -/
def handlersGet : List (JStr × ReverseHandler) → JStr → Option ReverseHandler
  | [], _ => none
  | (k, v) :: rest, key => if k = key then some v else handlersGet rest key

/-- Object construction for outbound messages: a field whose value is
`undefined` (`none`) is dropped, as `JSON.stringify` omits it from the wire. -/
def mkObj (fields : List (JStr × Option Json)) : Json :=
  .obj (fields.filterMap fun f => f.2.map fun v => (f.1, v))

/-- `BaseDebugClient.sendRequest` up to the transport write: allocate the
next seq, build the request object, register the pending entry, and hand the
request to `sendMessage` (the `Effect.sent`). -/
structure SendResult where
  state : ClientState
  seq : Int
  message : Json
  effects : List Effect

/-- `BaseDebugClient.sendRequest` (base class body). -/
def sendRequest (st : ClientState) (command : JStr) (args : Option Json) : SendResult :=
  let seq := st.nextSeq
  let request := mkObj
    [(jstr ("seq"), some (.num seq)),
     (jstr ("type"), some (.str (jstr ("request")))),
     (jstr ("command"), some (.str command)),
     (jstr ("arguments"), args)]
  { state := { st with nextSeq := seq + 1, pendingRequests := pendingSet st.pendingRequests seq },
    seq := seq,
    message := request,
    effects := [.logged .sendingRequest, .sent request] }

/-- `BaseDebugClient.sendResponse`: allocate a seq and send a success
response echoing the inbound request's `command` and `seq`. -/
def sendResponse (st : ClientState) (request : Json) (responseBody : Option Json) :
    ClientState × List Effect :=
  let response := mkObj
    [(jstr ("type"), some (.str (jstr ("response")))),
     (jstr ("seq"), some (.num st.nextSeq)),
     (jstr ("command"), jsGet request (jstr ("command"))),
     (jstr ("request_seq"), jsGet request (jstr ("seq"))),
     (jstr ("success"), some (.bool true)),
     (jstr ("body"), responseBody)]
  ({ st with nextSeq := st.nextSeq + 1 }, [.logged .sendingResponse, .sent response])

/-- `BaseDebugClient.sendErrorResponse`: allocate a seq and send a failure
response carrying `message` and a `body.error` detail. -/
def sendErrorResponse (st : ClientState) (request : Json) (message : JStr)
    (error : Option Json) : ClientState × List Effect :=
  let response := mkObj
    [(jstr ("type"), some (.str (jstr ("response")))),
     (jstr ("seq"), some (.num st.nextSeq)),
     (jstr ("command"), jsGet request (jstr ("command"))),
     (jstr ("request_seq"), jsGet request (jstr ("seq"))),
     (jstr ("success"), some (.bool false)),
     (jstr ("message"), some (.str message)),
     (jstr ("body"), some (mkObj [(jstr ("error"), error)]))]
  ({ st with nextSeq := st.nextSeq + 1 }, [.logged .sendingErrorResponse, .sent response])

/-- `BaseDebugClient.handleMessage`.  The two `match`es on fields that the
preceding classifier guard already proved present never take their fallback
arm; the fallbacks replicate the guard's failure behaviour. -/
def handleMessage (st : ClientState) (m : Json) : ClientState × List Effect :=
  if isResponse m then
    match jsGet m (jstr ("request_seq")) with
    | some (.num k) =>
      if k ∈ st.pendingRequests then
        let st' := { st with pendingRequests := st.pendingRequests.erase k }
        if jsTruthy (jsGet m (jstr ("success"))) then
          (st', [.logged .receivedResponse, .resolved k (jsGet m (jstr ("body")))])
        else
          (st', [.logged .receivedErrorResponse, .rejected k (jsGet m (jstr ("message")))])
      else (st, [.logged .unmatchedResponse])
    | _ => (st, [.logged .unmatchedResponse])
  else if isEvent m then
    match jsGet m (jstr ("event")) with
    | some (.str name) => (st, [.logged .receivedEvent, .emitted name (jsGet m (jstr ("body")))])
    | _ => (st, [.logged .receivedEvent])
  else if isRequest m then
    match jsGet m (jstr ("command")) with
    | some (.str cmd) =>
      match handlersGet st.reverseRequestHandlers cmd with
      | some handler =>
        match handler (jsGet m (jstr ("arguments"))) with
        | .ok body =>
          let (st', effs) := sendResponse st m body
          (st', .logged .receivedRequest :: effs)
        | .error emsg =>
          let (st', effs) := sendErrorResponse st m emsg none
          (st', .logged .receivedRequest :: effs)
      | none => (st, [.logged .noReverseHandler])
    | _ => (st, [.logged .noReverseHandler])
  else (st, [.logged .unknownMessage])

/-- The classification order of `handleMessage`: Response, then Event, then
Request, then Unknown. -/
inductive MsgKind where
  | response
  | event
  | request
  | unknown
deriving DecidableEq

/-- The branch taken by `handleMessage` for a decoded message. -/
def classify (m : Json) : MsgKind :=
  if isResponse m then .response
  else if isEvent m then .event
  else if isRequest m then .request
  else .unknown

/-! ## StreamDebugClient

`connection?` is modelled by the flag `connected`; the writable stream is
the `written` list of strings handed to `outStream.write`.  The overridden
senders check the connection first and raise `Error("not connected")`
(modelled as `Except.error`) before any other work; the connected path then
runs the base-class body, whose `this.sendMessage(message)` dispatches back
to `StreamDebugClient.sendMessage`, which writes `encodeMessage(message)`. -/

/-- The message printed by the `not connected` errors. -/
def notConnectedMsg : JStr := jstr ("not connected")

/-- The connection-scoped state of a `StreamDebugClient`. -/
structure StreamState where
  connected : Bool
  base : ClientState
  buffer : List Nat
  contentLength : Int
  written : List JStr

/-- `StreamDebugClient.connectAdapter`: refuses a second connection, else
records the connection and subscribes `handleData`. -/
def connectAdapter (st : StreamState) : StreamState × Except JStr Unit :=
  if st.connected then (st, .error (jstr ("already connected")))
  else ({ st with connected := true }, .ok ())

/-- `StreamDebugClient.disconnectAdapter`: when connected, unsubscribe and
drop the connection, then reset `buffer` and `contentLength`; the base-class
fields are not touched. -/
def disconnectAdapter (st : StreamState) : StreamState :=
  if st.connected then
    { st with connected := false, buffer := [], contentLength := -1 }
  else st

/-- `StreamDebugClient.sendMessage`: not-connected check, then write the
encoded message to the out stream. -/
def sendMessageS (st : StreamState) (message : Json) : StreamState × Except JStr Unit :=
  if st.connected then
    ({ st with written := st.written ++ [encodeMessage message] }, .ok ())
  else (st, .error notConnectedMsg)

/-- `StreamDebugClient.sendRequest`: not-connected check, then the base-class
`sendRequest`, whose `sendMessage` writes the encoded request.  Returns the
allocated seq identifying the pending promise. -/
def sendRequestS (st : StreamState) (command : JStr) (args : Option Json) :
    StreamState × Except JStr Int :=
  if st.connected then
    let r := sendRequest st.base command args
    ({ st with base := r.state, written := st.written ++ [encodeMessage r.message] }, .ok r.seq)
  else (st, .error notConnectedMsg)

/-- `StreamDebugClient.sendResponse`: not-connected check, then the
base-class `sendResponse`. -/
def sendResponseS (st : StreamState) (request : Json) (responseBody : Option Json) :
    StreamState × Except JStr Unit :=
  if st.connected then
    let (base', effs) := sendResponse st.base request responseBody
    let msgs := effs.filterMap fun e => match e with | .sent m => some (encodeMessage m) | _ => none
    ({ st with base := base', written := st.written ++ msgs }, .ok ())
  else (st, .error notConnectedMsg)

/-- `StreamDebugClient.sendErrorResponse`: not-connected check, then the
base-class `sendErrorResponse`. -/
def sendErrorResponseS (st : StreamState) (request : Json) (message : JStr)
    (error : Option Json) : StreamState × Except JStr Unit :=
  if st.connected then
    let (base', effs) := sendErrorResponse st.base request message error
    let msgs := effs.filterMap fun e => match e with | .sent m => some (encodeMessage m) | _ => none
    ({ st with base := base', written := st.written ++ msgs }, .ok ())
  else (st, .error notConnectedMsg)

/-! ## Definitions written from the claims, for comparison with the code -/

/-- Modelled from claim C1's words: the wire bytes are
`"Content-Length: " + N + "\r\n\r\n" + json`, where `json` is the UTF-8
serialization of the message and `N` is its byte length. -/
def encodeMessageClaim (message : Json) : List Nat :=
  let jsonBytes := utf8Bytes (stringify message)
  utf8Bytes (CONTENT_LENGTH_HEADER ++ jstr (": "))
    ++ utf8Bytes (natDigits jsonBytes.length)
    ++ TWO_CRLF_BYTES
    ++ jsonBytes

/-- Modelled from claim C9's words: Response first (discriminant indicates
response AND `request_seq` is a number AND `success` is a boolean), then
Event (`event` is a string AND `seq` is a number), then Request (`command`
is a string AND `seq` is a number), else Unknown.  Note the claim states no
discriminant test for Event and Request. -/
def classifySpecC9 (m : Json) : MsgKind :=
  if typeIs m (jstr ("response")) && isNumV (jsGet m (jstr ("request_seq")))
      && isBoolV (jsGet m (jstr ("success"))) then .response
  else if isStrV (jsGet m (jstr ("event"))) && isNumV (jsGet m (jstr ("seq"))) then .event
  else if isStrV (jsGet m (jstr ("command"))) && isNumV (jsGet m (jstr ("seq"))) then .request
  else .unknown

/-- Claim C9 as amended: the Event and Request checks also require the
discriminant (`type === "event"` / `type === "request"`), as the code's
`isEvent` and `isRequest` do. -/
def classifyAmendedC9 (m : Json) : MsgKind :=
  if typeIs m (jstr ("response")) && isNumV (jsGet m (jstr ("request_seq")))
      && isBoolV (jsGet m (jstr ("success"))) then .response
  else if typeIs m (jstr ("event")) && isStrV (jsGet m (jstr ("event")))
      && isNumV (jsGet m (jstr ("seq"))) then .event
  else if typeIs m (jstr ("request")) && isStrV (jsGet m (jstr ("command")))
      && isNumV (jsGet m (jstr ("seq"))) then .request
  else .unknown

/-! ## Concrete instances used by counterexamples and witnesses -/

/-- An event message whose serialization contains a non-ASCII code point:
its JSON text has 36 UTF-16 code units but 37 UTF-8 bytes. -/
def msgNonAscii : Json :=
  .obj [(jstr ("seq"), .num 1),
        (jstr ("type"), .str (jstr ("event"))),
        (jstr ("event"), .str (jstr ("é")))]

/-- A message with `event`/`seq` fields but a discriminant that is neither
`"response"`, `"event"` nor `"request"`. -/
def msgMixed : Json :=
  .obj [(jstr ("type"), .str (jstr ("x"))),
        (jstr ("event"), .str (jstr ("stopped"))),
        (jstr ("seq"), .num 1)]

/-- A connected client that has sent one request: seq 1 was allocated (so
`nextSeq` is 2) and its pending entry is outstanding. -/
def stPending : StreamState :=
  { connected := true, base := ⟨2, [1], []⟩, buffer := [], contentLength := -1, written := [] }

/-- A handler for `runInTerminal` returning `{"processId":123}`. -/
def ritHandler : ReverseHandler :=
  fun _ => .ok (some (.obj [(jstr ("processId"), .num 123)]))

/-- A fresh client with `ritHandler` registered for `runInTerminal`. -/
def stC7 : ClientState := ⟨1, [], [(jstr ("runInTerminal"), ritHandler)]⟩

/-- A disconnected fresh client. -/
def stDisconnected : StreamState :=
  { connected := false, base := clientInit, buffer := [], contentLength := -1, written := [] }

/-- An inbound `runInTerminal` request with seq 42. -/
def reqC7 : Json :=
  .obj [(jstr ("seq"), .num 42),
        (jstr ("type"), .str (jstr ("request"))),
        (jstr ("command"), .str (jstr ("runInTerminal"))),
        (jstr ("arguments"), .obj [])]

/-! ## Claim theorems -/

/-- C1.  The claim says `encode(M)` writes `Content-Length` equal to the
UTF-8 byte length of the JSON body (not its UTF-16 code-unit count).  The
code computes `body.length`, the UTF-16 code-unit count: at `msgNonAscii`
the body has 37 UTF-8 bytes but the code writes `Content-Length: 36`, so
the emitted bytes differ from the claim's wire format. -/
theorem C1_encode_writes_utf16_count :
    jsLength (stringify msgNonAscii) = 36
      ∧ (utf8Bytes (stringify msgNonAscii)).length = 37
      ∧ encodeMessage msgNonAscii
          = CONTENT_LENGTH_HEADER ++ jstr (": ") ++ natDigits 36 ++ TWO_CRLF
              ++ stringify msgNonAscii
      ∧ utf8Bytes (encodeMessage msgNonAscii) ≠ encodeMessageClaim msgNonAscii := by
  refine ⟨by decide, by decide, by decide, by decide⟩

/-- C2.  The claim says decoding `encode(M)` from the empty state yields one
message JSON-equivalent to M.  At `msgNonAscii` the undercounted
`Content-Length` makes the decoder slice 36 of the body's 37 bytes: the one
extracted body is the serialization without its final byte (not valid JSON,
so `JSON.parse` throws and the message is dropped), and the last byte stays
in the buffer. -/
theorem C2_round_trip_fails_non_ascii :
    (decodeChunk decodeInit (utf8Bytes (encodeMessage msgNonAscii))).bodies
        = [(utf8Bytes (stringify msgNonAscii)).dropLast]
      ∧ (decodeChunk decodeInit (utf8Bytes (encodeMessage msgNonAscii))).decode = ⟨[125], -1⟩
      ∧ (utf8Bytes (stringify msgNonAscii)).dropLast ≠ utf8Bytes (stringify msgNonAscii) := by
  refine ⟨by decide, by decide, by decide⟩

/-- C3.  Chunk-boundary independence: feeding any sequence of chunks from
the initial decode state yields exactly the bodies and final state of
feeding their concatenation as a single chunk; in particular any split of
one encoded message into two or more chunks decodes to the same message
sequence. -/
theorem C3_chunk_boundary_independence (chunks : List (List Nat)) :
    decodeChunks decodeInit chunks
      = ((decodeChunk decodeInit chunks.flatten).bodies,
         (decodeChunk decodeInit chunks.flatten).decode) := by
  cases chunks with
  | nil => decide
  | cons c cs => exact decodeChunks_cons cs c decodeInit

/-- C9 counterexample.  A message whose `type` is `"x"` but which has a
string `event` and an integer `seq` is classified Event by the claim's
stated checks, yet `handleMessage` treats it as Unknown because `isEvent`
also requires `type === "event"`. -/
theorem C9_counterexample :
    classifySpecC9 msgMixed = .event ∧ classify msgMixed = .unknown := by
  refine ⟨by decide, by decide⟩

/-- C9 as amended: with the discriminant conjunct added to the Event and
Request checks, the claim's classifier — Response first, then Event, then
Request, anything else Unknown — agrees with the code's classification on
every message; both are total functions, so classification never throws. -/
theorem C9_amended_classifier_agrees (m : Json) : classify m = classifyAmendedC9 m := rfl

/-- C10.  Exception containment in the decode loop: for every per-message
consumer `h` (modelling `JSON.parse` plus `handleMessage` plus any
synchronously invoked application callback, any of which may fail), the
bodies dispatched by `handleData` and the resulting decode state are exactly
those of the always-succeeding consumer: a failure is caught and logged, the
chunk's remaining complete messages are still extracted and dispatched in
order, and `handleData` returns normally for every input. -/
theorem C10_exception_containment {σ ε : Type} (h : σ → List Nat → σ × Except ε Unit)
    (st : DecodeState) (s : σ) (data : List Nat) :
    (handleData h st s data).bodies = (decodeChunk st data).bodies
      ∧ (handleData h st s data).decode = (decodeChunk st data).decode :=
  handleLoopH_bodies_decode h ⟨st.buffer ++ data, st.contentLength⟩ s

/-- The key registered by `Map.set` is in the map. -/
theorem pendingSet_mem (keys : List Int) (k : Int) : k ∈ pendingSet keys k := by
  by_cases hc : k ∈ keys
  · simp [pendingSet, hc]
  · simp [pendingSet, hc]

/-- A Response whose `request_seq` has no pending entry is logged and
discarded: the state is unchanged and nothing is resolved or rejected. -/
theorem handleMessage_unmatched (st : ClientState) (R : Json) (k : Int)
    (hresp : isResponse R = true)
    (hk : jsGet R (jstr ("request_seq")) = some (.num k))
    (hmiss : k ∉ st.pendingRequests) :
    handleMessage st R = (st, [.logged .unmatchedResponse]) := by
  simp [handleMessage, hresp, hk, hmiss]

/-- C4.  Correlation outcome: after `sendRequest` registers a pending entry
under its allocated seq `S`, dispatching a Response with `request_seq = S`
and `success == true` resolves the awaitable registered under `S` with the
response's `body`, and one with `success == false` rejects it with an error
carrying the response's `message`. -/
theorem C4_correlation (st : ClientState) (command : JStr) (args : Option Json) (R : Json)
    (hresp : isResponse R = true)
    (hseq : jsGet R (jstr ("request_seq")) = some (.num (sendRequest st command args).seq)) :
    (jsGet R (jstr ("success")) = some (.bool true) →
      (handleMessage (sendRequest st command args).state R).2
        = [.logged .receivedResponse,
           .resolved (sendRequest st command args).seq (jsGet R (jstr ("body")))])
    ∧ (jsGet R (jstr ("success")) = some (.bool false) →
      (handleMessage (sendRequest st command args).state R).2
        = [.logged .receivedErrorResponse,
           .rejected (sendRequest st command args).seq (jsGet R (jstr ("message")))]) := by
  have hmem : (sendRequest st command args).seq ∈ (sendRequest st command args).state.pendingRequests :=
    pendingSet_mem st.pendingRequests st.nextSeq
  constructor
  · intro hsucc
    simp [handleMessage, hresp, hseq, hmem, jsTruthy, hsucc]
  · intro hsucc
    simp [handleMessage, hresp, hseq, hmem, jsTruthy, hsucc]

/-- Closed instance of C4: a fresh client sends `"foo"`; seq 1 is allocated;
a success Response with `body = {"x":1}` resolves the awaitable with that
body; a failure Response with `message = "bad"` rejects it with that
message. -/
theorem C4_correlation_witness :
    (isResponse (.obj [(jstr ("type"), .str (jstr ("response"))),
        (jstr ("request_seq"), .num 1), (jstr ("success"), .bool true),
        (jstr ("body"), .obj [(jstr ("x"), .num 1)])]) = true)
    ∧ ((handleMessage (sendRequest clientInit (jstr ("foo")) none).state
          (.obj [(jstr ("type"), .str (jstr ("response"))),
            (jstr ("request_seq"), .num 1), (jstr ("success"), .bool true),
            (jstr ("body"), .obj [(jstr ("x"), .num 1)])])).2
        = [.logged .receivedResponse,
           .resolved (sendRequest clientInit (jstr ("foo")) none).seq
             (some (.obj [(jstr ("x"), .num 1)]))]) :=
  ⟨by decide,
   (C4_correlation clientInit (jstr ("foo")) none
      (.obj [(jstr ("type"), .str (jstr ("response"))),
        (jstr ("request_seq"), .num 1), (jstr ("success"), .bool true),
        (jstr ("body"), .obj [(jstr ("x"), .num 1)])])
      (by decide) rfl).1 rfl⟩

/-- C5.  No double resolution, unmatched tolerance: a Response whose
`request_seq` misses the pending table is logged and discarded with the
state unchanged; a Response that hits removes the entry before its callback
runs, so the entry is gone afterwards and any later Response with the same
`request_seq` is logged and discarded without resolving anything; nothing
throws (`handleMessage` is total). -/
theorem C5_no_double_resolution (st : ClientState) (R : Json) (k : Int)
    (hnodup : st.pendingRequests.Nodup)
    (hresp : isResponse R = true)
    (hk : jsGet R (jstr ("request_seq")) = some (.num k)) :
    (k ∉ st.pendingRequests → handleMessage st R = (st, [.logged .unmatchedResponse]))
    ∧ k ∉ (handleMessage st R).1.pendingRequests
    ∧ (∀ R2 : Json, isResponse R2 = true →
        jsGet R2 (jstr ("request_seq")) = some (.num k) →
        handleMessage (handleMessage st R).1 R2
          = ((handleMessage st R).1, [.logged .unmatchedResponse])) := by
  have hgone : k ∉ (handleMessage st R).1.pendingRequests := by
    by_cases hmem : k ∈ st.pendingRequests
    · have herase : k ∉ st.pendingRequests.erase k := by
        intro hcon
        exact ((hnodup.mem_erase_iff).mp hcon).1 rfl
      by_cases hsucc : jsTruthy (jsGet R (jstr ("success"))) <;>
        simp [handleMessage, hresp, hk, hmem, hsucc, herase]
    · simp [handleMessage, hresp, hk, hmem]
  exact ⟨fun hmiss => handleMessage_unmatched st R k hresp hk hmiss, hgone,
    fun R2 hresp2 hk2 => handleMessage_unmatched _ R2 k hresp2 hk2 hgone⟩

/-- Closed instance of C5: after the response for seq 1 is delivered to a
client with one pending request, the entry is gone and an identical second
response is logged and discarded with the state unchanged. -/
theorem C5_no_double_resolution_witness :
    ([(1 : Int)].Nodup
      ∧ isResponse (.obj [(jstr ("type"), .str (jstr ("response"))),
          (jstr ("request_seq"), .num 1), (jstr ("success"), .bool true)]) = true)
    ∧ (1 : Int) ∉ (handleMessage ⟨2, [1], []⟩
        (.obj [(jstr ("type"), .str (jstr ("response"))),
          (jstr ("request_seq"), .num 1), (jstr ("success"), .bool true)])).1.pendingRequests :=
  ⟨⟨by decide, by decide⟩,
   (C5_no_double_resolution ⟨2, [1], []⟩
      (.obj [(jstr ("type"), .str (jstr ("response"))),
        (jstr ("request_seq"), .num 1), (jstr ("success"), .bool true)]) 1
      (by decide) (by decide) rfl).2.1⟩

/-- C6.  Not-connected sends fail fast and atomically: with no connection,
`sendRequest`, `sendResponse`, `sendErrorResponse` and `sendMessage` all
return immediately with the `not connected` error, the state is unchanged
(no pending entry registered, sequence counter untouched) and nothing is
written to the transport. -/
theorem C6_not_connected_sends_fail (st : StreamState) (command : JStr) (args : Option Json)
    (request : Json) (responseBody : Option Json) (emsg : JStr) (error : Option Json) (m : Json)
    (hconn : st.connected = false) :
    sendRequestS st command args = (st, .error notConnectedMsg)
    ∧ sendResponseS st request responseBody = (st, .error notConnectedMsg)
    ∧ sendErrorResponseS st request emsg error = (st, .error notConnectedMsg)
    ∧ sendMessageS st m = (st, .error notConnectedMsg) := by
  refine ⟨?_, ?_, ?_, ?_⟩ <;> simp [sendRequestS, sendResponseS, sendErrorResponseS,
    sendMessageS, hconn]

/-- Closed instance of C6: on a disconnected fresh client every send
primitive fails with `not connected` and leaves the state unchanged. -/
theorem C6_not_connected_sends_fail_witness :
    stDisconnected.connected = false
    ∧ sendRequestS stDisconnected (jstr ("foo")) none
        = (stDisconnected, .error notConnectedMsg) :=
  ⟨rfl,
   (C6_not_connected_sends_fail stDisconnected
      (jstr ("foo")) none .null none (jstr ("x")) none .null rfl).1⟩

/-- C7.  Reverse-request round trip: for an inbound message classified as a
Request, a registered handler is invoked with the request's `arguments`; on
success exactly one success Response is sent (fresh seq, `request_seq` equal
to the inbound `seq`, `command` echoed, `body` the handler's result); on
failure exactly one failure Response with `success = false` and `message`
from the failure is sent; with no registered handler nothing is sent and
nothing is thrown (the dispatch only logs).  The handler's promise is
modelled as settling synchronously. -/
theorem C7_reverse_request_round_trip (st : ClientState) (R : Json) (command : JStr)
    (h1 : isResponse R = false) (h2 : isEvent R = false) (h3 : isRequest R = true)
    (hcmd : jsGet R (jstr ("command")) = some (.str command)) :
    (∀ handler, handlersGet st.reverseRequestHandlers command = some handler →
      (∀ b, handler (jsGet R (jstr ("arguments"))) = .ok b →
        handleMessage st R
          = ({ st with nextSeq := st.nextSeq + 1 },
             [.logged .receivedRequest, .logged .sendingResponse,
              .sent (mkObj
                [(jstr ("type"), some (.str (jstr ("response")))),
                 (jstr ("seq"), some (.num st.nextSeq)),
                 (jstr ("command"), jsGet R (jstr ("command"))),
                 (jstr ("request_seq"), jsGet R (jstr ("seq"))),
                 (jstr ("success"), some (.bool true)),
                 (jstr ("body"), b)])]))
      ∧ (∀ emsg, handler (jsGet R (jstr ("arguments"))) = .error emsg →
        handleMessage st R
          = ({ st with nextSeq := st.nextSeq + 1 },
             [.logged .receivedRequest, .logged .sendingErrorResponse,
              .sent (mkObj
                [(jstr ("type"), some (.str (jstr ("response")))),
                 (jstr ("seq"), some (.num st.nextSeq)),
                 (jstr ("command"), jsGet R (jstr ("command"))),
                 (jstr ("request_seq"), jsGet R (jstr ("seq"))),
                 (jstr ("success"), some (.bool false)),
                 (jstr ("message"), some (.str emsg)),
                 (jstr ("body"), some (mkObj [(jstr ("error"), none)]))])])))
    ∧ (handlersGet st.reverseRequestHandlers command = none →
        handleMessage st R = (st, [.logged .noReverseHandler])) := by
  constructor
  · intro handler hreg
    constructor
    · intro b hok
      simp [handleMessage, h1, h2, h3, hcmd, hreg, hok, sendResponse]
    · intro emsg herr
      simp [handleMessage, h1, h2, h3, hcmd, hreg, herr, sendErrorResponse]
  · intro hnone
    simp [handleMessage, h1, h2, h3, hcmd, hnone]

/-- Closed instance of C7: dispatching an inbound `runInTerminal` Request
(seq 42) to a client whose registered handler returns `{"processId":123}`
sends exactly one success Response with seq 1, `request_seq` 42, the command
echoed, and that body. -/
theorem C7_reverse_request_round_trip_witness :
    (isRequest reqC7 = true
      ∧ handlersGet stC7.reverseRequestHandlers (jstr ("runInTerminal")) = some ritHandler)
    ∧ handleMessage stC7 reqC7
        = ({ stC7 with nextSeq := 2 },
           [.logged .receivedRequest, .logged .sendingResponse,
            .sent (mkObj
              [(jstr ("type"), some (.str (jstr ("response")))),
               (jstr ("seq"), some (.num 1)),
               (jstr ("command"), jsGet reqC7 (jstr ("command"))),
               (jstr ("request_seq"), jsGet reqC7 (jstr ("seq"))),
               (jstr ("success"), some (.bool true)),
               (jstr ("body"), some (.obj [(jstr ("processId"), .num 123)]))])]) :=
  ⟨⟨by decide, rfl⟩,
   ((C7_reverse_request_round_trip stC7 reqC7 (jstr ("runInTerminal"))
      (by decide) (by decide) (by decide) rfl).1 ritHandler rfl).1
      (some (.obj [(jstr ("processId"), .num 123)])) rfl⟩

/-- C8 counterexample.  On a connected client with one outstanding request
(seq 1 pending, `nextSeq` 2), `disconnectAdapter` empties the buffer and
resets the expected content length, but the pending-request table still
holds seq 1 and the sequence counter is still 2 — not the claimed empty
table and initial value 1. -/
theorem C8_counterexample :
    (disconnectAdapter stPending).buffer = []
    ∧ (disconnectAdapter stPending).contentLength = -1
    ∧ (disconnectAdapter stPending).base.pendingRequests = [1]
    ∧ (disconnectAdapter stPending).base.nextSeq = 2 :=
  ⟨rfl, rfl, rfl, rfl⟩

/-- C8 as amended: after `disconnectAdapter` on a connected client the
connection is dropped, the byte buffer is empty and the expected content
length is back to `-1`, while the base-client state — the pending-request
table, the sequence counter and the handler registries — and the write log
carry over unchanged. -/
theorem C8_disconnect_resets_framing_only (st : StreamState) (hconn : st.connected = true) :
    (disconnectAdapter st).connected = false
    ∧ (disconnectAdapter st).buffer = []
    ∧ (disconnectAdapter st).contentLength = -1
    ∧ (disconnectAdapter st).base = st.base
    ∧ (disconnectAdapter st).written = st.written := by
  simp [disconnectAdapter, hconn]

/-- Closed instance of the amended C8 at `stPending`. -/
theorem C8_disconnect_resets_framing_only_witness :
    stPending.connected = true
    ∧ ((disconnectAdapter stPending).connected = false
       ∧ (disconnectAdapter stPending).buffer = []
       ∧ (disconnectAdapter stPending).contentLength = -1
       ∧ (disconnectAdapter stPending).base = stPending.base
       ∧ (disconnectAdapter stPending).written = stPending.written) :=
  ⟨rfl, C8_disconnect_resets_framing_only stPending rfl⟩

/-! ## The decoder inverts the encoder on ASCII serializations

The round trip of C2 fails only because `encodeMessage` counts UTF-16 code
units.  The following development shows the decode loop is otherwise
correct: whenever the serialization is pure ASCII — where code units and
bytes coincide — one encoded message decodes from the initial state to
exactly that message body, with an empty buffer and reset length behind it. -/

theorem natDigitsAux_ne_nil (fuel n : Nat) : natDigitsAux fuel n ≠ [] := by
  cases fuel with
  | zero => simp [natDigitsAux]
  | succ f =>
    rw [natDigitsAux]
    split
    · simp
    · simp

theorem stringify_ne_nil (m : Json) : stringify m ≠ [] := by
  cases m with
  | null => simp [stringify, jstr]
  | bool b => cases b <;> simp [stringify, jstr]
  | num n =>
    rw [stringify, intChars]
    split
    · simp
    · exact natDigitsAux_ne_nil _ _
  | str s => simp [stringify, quoteStr]
  | arr items => simp [stringify]
  | obj members => simp [stringify]

theorem toNat_digitChar (d : Nat) (hd : d < 10) : (Char.ofNat (48 + d)).toNat = 48 + d := by
  interval_cases d <;> decide

/-- Every digit character has a code in `[48, 57]`, and mapping the digit
string to its codes and parsing it back returns the number. -/
theorem natDigitsAux_spec : ∀ (fuel n : Nat), n ≤ fuel →
    (∀ c ∈ natDigitsAux fuel n, 48 ≤ c.toNat ∧ c.toNat ≤ 57)
      ∧ digitsVal ((natDigitsAux fuel n).map Char.toNat) = n := by
  intro fuel
  induction fuel with
  | zero =>
    intro n hn
    have hn0 : n = 0 := by omega
    subst hn0
    exact ⟨by decide, by decide⟩
  | succ f ih =>
    intro n hn
    rw [natDigitsAux]
    by_cases hlt : n < 10
    · rw [if_pos hlt]
      refine ⟨?_, ?_⟩
      · intro c hc
        simp at hc
        subst hc
        rw [toNat_digitChar n hlt]
        omega
      · simp [digitsVal, toNat_digitChar n hlt]
    · rw [if_neg hlt]
      have hdiv : n / 10 ≤ f := by
        have : n / 10 < n := Nat.div_lt_self (by omega) (by omega)
        omega
      obtain ⟨ihr, ihv⟩ := ih (n / 10) hdiv
      have hmod : (Char.ofNat (48 + n % 10)).toNat = 48 + n % 10 :=
        toNat_digitChar (n % 10) (Nat.mod_lt n (by omega))
      refine ⟨?_, ?_⟩
      · intro c hc
        simp at hc
        rcases hc with hc | hc
        · exact ihr c hc
        · subst hc
          rw [hmod]
          omega
      · rw [List.map_append]
        simp only [digitsVal] at ihv ⊢
        rw [List.foldl_append, ihv]
        simp [hmod]
        omega

theorem natDigits_spec (n : Nat) :
    (∀ c ∈ natDigits n, 48 ≤ c.toNat ∧ c.toNat ≤ 57)
      ∧ digitsVal ((natDigits n).map Char.toNat) = n :=
  natDigitsAux_spec n n (le_refl n)

/-- UTF-8 encoding of an ASCII string is just its code points, one byte per
character. -/
theorem utf8Bytes_ascii (s : JStr) (h : ∀ c ∈ s, c.toNat < 128) :
    utf8Bytes s = s.map Char.toNat := by
  induction s with
  | nil => rfl
  | cons c rest ih =>
    have hc : c.toNat < 128 := h c (by simp)
    have henc : utf8EncodeChar c = [c.toNat] := by
      rw [utf8EncodeChar]
      simp [hc]
    show utf8EncodeChar c ++ utf8Bytes rest = c.toNat :: rest.map Char.toNat
    rw [henc, ih (fun c hc => h c (by simp [hc]))]
    rfl

/-- A pure-ASCII string occupies one UTF-16 code unit per character. -/
theorem jsLength_ascii (s : JStr) (h : ∀ c ∈ s, c.toNat < 128) :
    jsLength s = s.length := by
  induction s with
  | nil => rfl
  | cons c rest ih =>
    have hc : c.toNat < 128 := h c (by simp)
    show utf16Units c + jsLength rest = rest.length + 1
    rw [utf16Units, if_pos (by omega : c.toNat < 65536),
      ih (fun c hc => h c (by simp [hc]))]
    omega

/-- With no carriage return before it, the header terminator is found
exactly at the end of the header bytes. -/
theorem indexOfSeq_terminator (p rest : List Nat) (h : ∀ b ∈ p, b ≠ 13) :
    indexOfSeq (p ++ 13 :: 10 :: 13 :: 10 :: rest) TWO_CRLF_BYTES = some p.length := by
  induction p with
  | nil =>
    rw [List.nil_append, indexOfSeq]
    simp [TWO_CRLF_BYTES, List.isPrefixOf]
  | cons a p ih =>
    have ha : a ≠ 13 := h a (by simp)
    rw [List.cons_append, indexOfSeq]
    have hp : ¬ TWO_CRLF_BYTES.isPrefixOf (a :: (p ++ 13 :: 10 :: 13 :: 10 :: rest)) := by
      simp [TWO_CRLF_BYTES, List.isPrefixOf]
      intro hcon
      exact absurd hcon.symm ha
    rw [if_neg hp]
    simp only [ih (fun b hb => h b (by simp [hb])), Option.map_some']
    simp

/-- A header block with no carriage return splits into the single line that
it is. -/
theorem splitOnCRLF_no_cr (s : List Nat) (h : ∀ b ∈ s, b ≠ 13) : splitOnCRLF s = [s] := by
  induction s with
  | nil => rfl
  | cons b rest ih =>
    have hb : b ≠ 13 := h b (by simp)
    have heq : splitOnCRLF (b :: rest) = consHead b (splitOnCRLF rest) := by
      rw [splitOnCRLF.eq_def]
      split
      · next heq2 => cases heq2
      · next r heq2 =>
        rw [List.cons.injEq] at heq2
        exact absurd heq2.1 hb
      · next b2 r2 heq2 =>
        rw [List.cons.injEq] at heq2
        rw [heq2.1, heq2.2]
    rw [heq, ih (fun b hb => h b (by simp [hb]))]
    rfl

/-- With no colon in it, a line is a single piece. -/
theorem splitColonSpacesAux_no_colon : ∀ (fuel : Nat) (s : List Nat), s.length ≤ fuel →
    (∀ b ∈ s, b ≠ 58) → splitColonSpacesAux fuel s = [s] := by
  intro fuel
  induction fuel with
  | zero =>
    intro s hlen _
    have : s = [] := List.length_eq_zero.mp (by omega)
    subst this
    rfl
  | succ f ih =>
    intro s hlen h
    cases s with
    | nil => rfl
    | cons b rest =>
      have hb : b ≠ 58 := h b (by simp)
      rw [splitColonSpacesAux]
      rw [if_neg (by simp [hb])]
      rw [ih rest (by simp at hlen; omega) (fun b hb => h b (by simp [hb]))]
      rfl

/-- A line of the form `name ++ ": " ++ digits`, with no colon in the name,
splits into exactly the name and the digit string. -/
theorem splitColonSpacesAux_header : ∀ (fuel : Nat) (p q : List Nat),
    p.length + 2 + q.length ≤ fuel →
    (∀ b ∈ p, b ≠ 58) → (∀ b ∈ q, isDigitByte b) →
    splitColonSpacesAux fuel (p ++ 58 :: 32 :: q) = [p, q] := by
  intro fuel
  induction fuel with
  | zero => intro p q hlen _ _; omega
  | succ f ih =>
    intro p q hlen hp hq
    cases p with
    | nil =>
      simp only [List.nil_append]
      rw [splitColonSpacesAux]
      rw [if_pos (by simp)]
      have hdrop : (32 :: q).dropWhile (fun x => x = 32) = q := by
        rw [List.dropWhile_cons_of_pos (by simp)]
        cases q with
        | nil => rfl
        | cons d q2 =>
          have hd : isDigitByte d = true := hq d (by simp)
          simp [isDigitByte] at hd
          rw [List.dropWhile_cons_of_neg (by simp; omega)]
      rw [hdrop]
      rw [splitColonSpacesAux_no_colon f q (by simp at hlen; omega)
        (fun b hb => by have := hq b hb; simp [isDigitByte] at this; omega)]
    | cons a p2 =>
      have ha : a ≠ 58 := hp a (by simp)
      rw [List.cons_append, splitColonSpacesAux]
      rw [if_neg (by simp [ha])]
      rw [ih p2 q (by simp at hlen; omega) (fun b hb => hp b (by simp [hb])) hq]
      rfl

/-- `utf8Bytes` distributes over concatenation. -/
theorem utf8Bytes_append (a b : JStr) : utf8Bytes (a ++ b) = utf8Bytes a ++ utf8Bytes b :=
  List.flatMap_append a b utf8EncodeChar

/-- Parsing the header line `Content-Length: <digits>` records the digits'
value as the expected content length. -/
theorem headerContentLength_line (D : List Nat) (N : Nat) (cl : Int)
    (hne : D ≠ []) (hdig : ∀ b ∈ D, isDigitByte b) (hval : digitsVal D = N) :
    headerContentLength (CONTENT_LENGTH_BYTES ++ 58 :: 32 :: D) cl = (N : Int) := by
  have hclb : ∀ x ∈ CONTENT_LENGTH_BYTES, x ≠ 13 := by decide
  have h13 : ∀ b ∈ CONTENT_LENGTH_BYTES ++ 58 :: 32 :: D, b ≠ 13 := by
    intro b hb
    rw [List.mem_append] at hb
    rcases hb with hb | hb
    · exact hclb b hb
    · simp at hb
      rcases hb with hb | hb | hb
      · omega
      · omega
      · have := hdig b hb
        simp [isDigitByte] at this
        omega
  rw [headerContentLength, splitOnCRLF_no_cr _ h13]
  rw [List.foldl_cons, List.foldl_nil, processHeaderLine]
  rw [splitColonSpaces,
    splitColonSpacesAux_header (CONTENT_LENGTH_BYTES ++ 58 :: 32 :: D).length
      CONTENT_LENGTH_BYTES D
      (by simp only [List.length_append, List.length_cons]; omega) (by decide) hdig]
  simp [jsToNumber, hne, List.all_eq_true.mpr hdig, hval]

/-- Decoding one well-formed frame — header bytes free of carriage returns,
the terminator, then a body of exactly the announced length — extracts
exactly that body and ends on the initial decode state. -/
theorem decode_single_frame (P B : List Nat) (N : Nat)
    (hP13 : ∀ b ∈ P, b ≠ 13)
    (hcl : headerContentLength P (-1) = (N : Int))
    (hlen : B.length = N) (hne : B ≠ []) :
    handleLoopH pureHandler ⟨P ++ 13 :: 10 :: 13 :: 10 :: B, -1⟩ ()
      = ⟨[B], [], ⟨[], -1⟩, ()⟩ := by
  have h0 : ¬ (0 ≤ (-1 : Int)) := by omega
  rw [handleLoopH_header pureHandler _ () h0 P.length (indexOfSeq_terminator P B hP13)]
  have htake : (P ++ 13 :: 10 :: 13 :: 10 :: B).take P.length = P := List.take_left P _
  have hdrop : (P ++ 13 :: 10 :: 13 :: 10 :: B).drop (P.length + 4) = B := by
    have h1 : P ++ 13 :: 10 :: 13 :: 10 :: B = (P ++ [13, 10, 13, 10]) ++ B := by simp
    have h2 : (P ++ [13, 10, 13, 10]).length = P.length + 4 := by simp
    rw [h1, ← h2, List.drop_left]
  rw [show (⟨(P ++ 13 :: 10 :: 13 :: 10 :: B).drop (P.length + 4),
        headerContentLength ((P ++ 13 :: 10 :: 13 :: 10 :: B).take P.length) (-1)⟩ : DecodeState)
      = ⟨B, (N : Int)⟩ by rw [htake, hdrop, hcl]]
  have h0b : (0 : Int) ≤ (N : Int) := Int.natCast_nonneg N
  have htn : ((N : Int)).toNat = N := Int.toNat_natCast N
  have hlB : ((N : Int)).toNat ≤ B.length := by omega
  have htakeB : B.take ((N : Int)).toNat = B := by rw [htn, ← hlen, List.take_length]
  have hdropB : B.drop ((N : Int)).toNat = [] := by rw [htn, ← hlen, List.drop_length]
  rw [handleLoopH_body pureHandler ⟨B, (N : Int)⟩ () h0b hlB (by rw [htakeB]; exact hne)]
  simp only [htakeB, hdropB, pureHandler]
  rw [handleLoopH_stuckHeader pureHandler ⟨[], -1⟩ () h0 rfl]

/-- The decoder inverts the encoder on every message whose JSON serialization
is pure ASCII: feeding `encode(M)`'s bytes from the initial decode state
extracts exactly the serialization of `M`, with nothing buffered and no
expected length behind it.  (On non-ASCII serializations the UTF-16 length
written by `encodeMessage` breaks this; see C1 and C2.) -/
theorem decode_encode_ascii (m : Json) (hascii : ∀ c ∈ stringify m, c.toNat < 128) :
    decodeChunk decodeInit (utf8Bytes (encodeMessage m))
      = ⟨[utf8Bytes (stringify m)], [], decodeInit, ()⟩ := by
  obtain ⟨hdrange, hdval⟩ := natDigits_spec (jsLength (stringify m))
  have hdascii : ∀ c ∈ natDigits (jsLength (stringify m)), c.toNat < 128 := by
    intro c hc
    have := hdrange c hc
    omega
  have hD : utf8Bytes (natDigits (jsLength (stringify m)))
      = (natDigits (jsLength (stringify m))).map Char.toNat :=
    utf8Bytes_ascii _ hdascii
  have hDdig : ∀ b ∈ utf8Bytes (natDigits (jsLength (stringify m))), isDigitByte b := by
    intro b hb
    rw [hD, List.mem_map] at hb
    obtain ⟨c, hc, rfl⟩ := hb
    have := hdrange c hc
    simp [isDigitByte]
    omega
  have hDne : utf8Bytes (natDigits (jsLength (stringify m))) ≠ [] := by
    rw [hD]
    simp [natDigits, natDigitsAux_ne_nil]
  have hDval : digitsVal (utf8Bytes (natDigits (jsLength (stringify m))))
      = jsLength (stringify m) := by rw [hD]; exact hdval
  have hbuf : utf8Bytes (encodeMessage m)
      = (CONTENT_LENGTH_BYTES ++ 58 :: 32 :: utf8Bytes (natDigits (jsLength (stringify m))))
          ++ 13 :: 10 :: 13 :: 10 :: utf8Bytes (stringify m) := by
    rw [encodeMessage]
    rw [utf8Bytes_append, utf8Bytes_append, utf8Bytes_append, utf8Bytes_append]
    rw [show utf8Bytes TWO_CRLF = [13, 10, 13, 10] from rfl]
    rw [show utf8Bytes (jstr (": ")) = [58, 32] from rfl]
    rw [show utf8Bytes CONTENT_LENGTH_HEADER = CONTENT_LENGTH_BYTES from rfl]
    simp
  have hP13 : ∀ b ∈ CONTENT_LENGTH_BYTES
      ++ 58 :: 32 :: utf8Bytes (natDigits (jsLength (stringify m))), b ≠ 13 := by
    intro b hb
    rw [List.mem_append] at hb
    rcases hb with hb | hb
    · exact (by decide : ∀ x ∈ CONTENT_LENGTH_BYTES, x ≠ 13) b hb
    · simp at hb
      rcases hb with hb | hb | hb
      · omega
      · omega
      · have := hDdig b hb
        simp [isDigitByte] at this
        omega
  have hcl : headerContentLength
      (CONTENT_LENGTH_BYTES ++ 58 :: 32 :: utf8Bytes (natDigits (jsLength (stringify m))))
      (-1) = ((jsLength (stringify m) : Nat) : Int) :=
    headerContentLength_line _ _ _ hDne hDdig hDval
  have hBlen : (utf8Bytes (stringify m)).length = jsLength (stringify m) := by
    rw [utf8Bytes_ascii _ hascii, List.length_map, jsLength_ascii _ hascii]
  have hBne : utf8Bytes (stringify m) ≠ [] := by
    rw [utf8Bytes_ascii _ hascii]
    simp [stringify_ne_nil]
  show handleLoopH pureHandler ⟨[] ++ utf8Bytes (encodeMessage m), -1⟩ ()
      = ⟨[utf8Bytes (stringify m)], [], decodeInit, ()⟩
  rw [List.nil_append, hbuf]
  exact decode_single_frame _ _ _ hP13 hcl hBlen hBne

end DbgClient

